import Mathlib

/-!
Shallow embedding of the `nyc-officer-complaints-RAG` backend
(`src/backend/rag/`), covering the text processor, the FAISS index
builder, the retriever, the LLM gateway and the pipeline orchestrator,
together with theorems settling the frozen claims about them.

Modelling conventions:
* Python strings handled character-wise (slicing, `rfind`, `strip`) are
  `List Char`; strings only concatenated or compared are `String`.
* Machine floats appear in the source only as similarity scores and as
  the `chunk_size * 0.5` threshold.  Scores are modelled as `Int`
  (every claim about them concerns only ordering and control flow);
  the threshold comparison `last_punct > chunk_size * 0.5` is the exact
  integer condition `chunk_size < 2 * last_punct`.
* I/O and library calls (file reads, FAISS, the embedding model, the
  LLM client, MD5) are parameters of the embedded functions: the
  embedding takes the outcome of each external call as an argument.
-/

namespace RAGSpec

/-! ## TextProcessor (`src/backend/rag/text_processor.py`) -/

/-- The whitespace characters removed by Python `str.strip()`
(ASCII core of Python's whitespace set). -/
def isPySpace (ch : Char) : Bool :=
  ch = ' ' || ch = '\t' || ch = '\n' || ch = '\r' || ch = '\x0b' || ch = '\x0c'

/-- Python `s.strip()`: drop leading and trailing whitespace. -/
def pyStrip (s : List Char) : List Char :=
  ((s.dropWhile isPySpace).reverse.dropWhile isPySpace).reverse

/-- Python slice `s[start:start+len]`. -/
def slice (s : List Char) (start len : Nat) : List Char :=
  (s.drop start).take len

/-- `pat` occurs in `s` starting at index `i`. -/
def occursAt (s pat : List Char) (i : Nat) : Bool :=
  decide ((s.drop i).take pat.length = pat)

/-- Python `s.rfind(pat)`: the greatest index at which `pat` occurs in
`s`, as an `Option` (`none` models Python's `-1`). -/
def rfind (s pat : List Char) : Option Nat :=
  ((List.range (s.length + 1)).filter (occursAt s pat)).getLast?

/-- The sentence-boundary markers of `chunk_text`, in the order the
source iterates over them: `'. '`, `'! '`, `'? '`, `'\n'`. -/
def puncts : List (List Char) :=
  [['.', ' '], ['!', ' '], ['?', ' '], ['\n']]

/-- The `for punct in [...]` loop of `chunk_text` (lines 48-53): take
the first marker whose last occurrence `last_punct` satisfies
`last_punct > chunk_size * 0.5` (exactly: `chunk_size < 2 * last_punct`)
and truncate the window to `chunk[:last_punct + 1]`; otherwise keep the
window unchanged. -/
def punctCut (c : Nat) (chunk : List Char) : List (List Char) → List Char
  | [] => chunk
  | p :: ps =>
    match rfind chunk p with
    | some i => if c < 2 * i then chunk.take (i + 1) else punctCut c chunk ps
    | none => punctCut c chunk ps

/-- Sentence-boundary truncation of one window of `chunk_text`. -/
def windowTruncate (c : Nat) (chunk : List Char) : List Char :=
  punctCut c chunk puncts

/-- The `while start < len(text)` loop of `chunk_text` (lines 42-63),
with explicit fuel (`none` means the fuel ran out before the Python
loop exited, so in particular the Python loop ran at least `fuel`
iterations).  One iteration: take the window `text[start:start+c]`;
if `start + c < text.length` apply the boundary truncation and set
`end = start + len(chunk)` (when no marker fires the window is full, so
this equals `start + c` exactly as in the source); append the stripped
chunk when nonempty; break when `end >= len(text)`, else continue from
`start = end - overlap` (`Nat` subtraction: under every configuration
our theorems cover, `end - overlap > start ≥ 0`, so no clamping is

exercised). -/
def chunkLoop (c ov : Nat) (text : List Char) :
    Nat → Nat → List (List Char) → Option (List (List Char))
  | 0, _, _ => none
  | fuel + 1, start, acc =>
    if start < text.length then
      let chunk0 := slice text start c
      let chunk := if start + c < text.length then windowTruncate c chunk0 else chunk0
      let e := if start + c < text.length then start + chunk.length else start + c
      let acc2 := if pyStrip chunk = [] then acc else acc ++ [pyStrip chunk]
      if text.length ≤ e then some acc2
      else chunkLoop c ov text fuel (e - ov) acc2
    else some acc

/-- `TextProcessor.chunk_text` (lines 32-65): strip the input, return
it whole (or nothing) when it fits in one chunk, else run the sliding
loop with fuel `length + 1` (enough whenever the Python loop
terminates within `length` iterations). -/
def chunk_text (c ov : Nat) (text : List Char) : Option (List (List Char)) :=
  let t := pyStrip text
  if t.length ≤ c then some (if t = [] then [] else [t])
  else chunkLoop c ov t (t.length + 1) 0 []

lemma dropWhile_length_le (p : Char → Bool) (l : List Char) :
    (l.dropWhile p).length ≤ l.length := by
  induction l with
  | nil => simp
  | cons a l ih =>
    by_cases h : p a <;> simp [List.dropWhile_cons, h]
    omega

lemma pyStrip_length_le (t : List Char) : (pyStrip t).length ≤ t.length := by
  unfold pyStrip
  calc ((t.dropWhile isPySpace).reverse.dropWhile isPySpace).reverse.length
      = ((t.dropWhile isPySpace).reverse.dropWhile isPySpace).length := by
        simp
    _ ≤ (t.dropWhile isPySpace).reverse.length := dropWhile_length_le _ _
    _ = (t.dropWhile isPySpace).length := by simp
    _ ≤ t.length := dropWhile_length_le _ _

/-- C6: for every text whose length is at most `chunk_size`,
`chunk_text` returns exactly the stripped text as a single chunk, or
the empty list when the text strips to empty. -/
theorem chunk_text_short (c ov : Nat) (t : List Char) (h : t.length ≤ c) :
    chunk_text c ov t = some (if pyStrip t = [] then [] else [pyStrip t]) := by
  have hlen : (pyStrip t).length ≤ c := le_trans (pyStrip_length_le t) h
  unfold chunk_text
  simp [hlen]

/-- Witness for `chunk_text_short` at a concrete input. -/
theorem chunk_text_short_witness :
    ("  ab ".toList.length ≤ 512) ∧
      chunk_text 512 128 "  ab ".toList =
        some (if pyStrip "  ab ".toList = [] then [] else [pyStrip "  ab ".toList]) :=
  ⟨by decide, chunk_text_short 512 128 "  ab ".toList (by decide)⟩

/-- A marker qualifies for truncation when its last occurrence lies
strictly past half of `chunk_size` (the source's
`last_punct > chunk_size * 0.5`). -/
def punctQualifies (c : Nat) (chunk : List Char) (p : List Char) : Bool :=
  match rfind chunk p with
  | some i => decide (c < 2 * i)
  | none => false

/-- Amended-claim statement of the truncation rule, written from the
amended sentence: the FIRST marker in the priority order
`'. '`, `'! '`, `'? '`, `'\n'` whose last occurrence lies strictly past
half of `chunk_size` wins, and the window is cut just after that
occurrence's first character; with no qualifying marker the window is
kept whole. -/
def priorityTruncate (c : Nat) (chunk : List Char) : List Char :=
  match puncts.find? (punctQualifies c chunk) with
  | some p =>
    match rfind chunk p with
    | some i => chunk.take (i + 1)
    | none => chunk
  | none => chunk

/-- The original claim's truncation rule, written from the claim's
words: take the last occurrence among ALL FOUR markers; if it lies at
or after 50% of `chunk_size`, cut there (inclusive), else keep the
window whole. -/
def claimTruncate (c : Nat) (chunk : List Char) : List Char :=
  match (puncts.filterMap (fun p => rfind chunk p)).max? with
  | some i => if c ≤ 2 * i then chunk.take (i + 1) else chunk
  | none => chunk

lemma punctCut_eq_find (c : Nat) (chunk : List Char) : ∀ ps : List (List Char),
    punctCut c chunk ps =
      (match ps.find? (punctQualifies c chunk) with
       | some p =>
         match rfind chunk p with
         | some i => chunk.take (i + 1)
         | none => chunk
       | none => chunk) := by
  intro ps
  induction ps with
  | nil => rfl
  | cons p ps ih =>
    by_cases hq : punctQualifies c chunk p
    · unfold punctQualifies at hq
      rcases hr : rfind chunk p with _ | i
      · rw [hr] at hq; simp at hq
      · rw [hr] at hq
        simp only [decide_eq_true_eq] at hq
        simp [punctCut, hr, hq, List.find?, punctQualifies]
    · unfold punctQualifies at hq
      rcases hr : rfind chunk p with _ | i
      · simp only [List.find?]
        have : punctQualifies c chunk p = false := by
          unfold punctQualifies; rw [hr]
        rw [this]
        simpa [punctCut, hr] using ih
      · rw [hr] at hq
        simp only [decide_eq_true_eq] at hq
        simp only [List.find?]
        have : punctQualifies c chunk p = false := by
          unfold punctQualifies; rw [hr]; simpa using hq
        rw [this]
        simpa [punctCut, hr, hq] using ih

/-- C3 (counterexample): on the text
`"aaaaaaa. b! czzzzzzz"` with `chunk_size = 13`, `overlap = 0`, the
first window is `"aaaaaaa. b! c"`; the claim's rule (last occurrence
among all four markers, at-or-after 50%) would cut at the `'! '` at
index 10 giving `"aaaaaaa. b!"`, but the code checks `'. '` first and
cuts at index 7, producing the chunk `"aaaaaaa."`. -/
theorem chunk_text_not_last_marker :
    chunk_text 13 0 "aaaaaaa. b! czzzzzzz".toList =
      some ["aaaaaaa.".toList, "b! czzzzzzz".toList] ∧
    claimTruncate 13 (slice "aaaaaaa. b! czzzzzzz".toList 0 13) =
      "aaaaaaa. b!".toList ∧
    ("aaaaaaa.".toList : List Char) ≠ "aaaaaaa. b!".toList := by
  refine ⟨by decide, by decide, by decide⟩

/-- C3 (amended): every window of `chunk_text` that ends before the end
of the text is truncated by `windowTruncate`, which cuts at the last
occurrence of the FIRST marker in the priority order
`'. '`, `'! '`, `'? '`, `'\n'` whose last occurrence lies strictly
after 50% of `chunk_size`, keeping the marker's first character; when
no marker qualifies the window is kept whole. -/
theorem windowTruncate_priority (c : Nat) (chunk : List Char) :
    windowTruncate c chunk = priorityTruncate c chunk :=
  punctCut_eq_find c chunk puncts

/-- The sliding loop of `chunk_text` terminates on stripped text `t`
from configuration `(c, ov)`: some finite fuel suffices. -/
def loopTerminates (c ov : Nat) (text : List Char) : Prop :=
  ∃ fuel, (chunkLoop c ov (pyStrip text) fuel 0 []).isSome

lemma chunkLoop_aaaa_none : ∀ (fuel : Nat) (acc : List (List Char)),
    chunkLoop 2 2 "aaaa".toList fuel 0 acc = none := by
  intro fuel
  induction fuel with
  | zero => intro acc; rfl
  | succ n ih =>
    intro acc
    have hstep : chunkLoop 2 2 "aaaa".toList (n + 1) 0 acc =
        chunkLoop 2 2 "aaaa".toList n 0 (acc ++ [['a', 'a']]) := rfl
    rw [hstep]
    exact ih (acc ++ [['a', 'a']])

/-- C4 (counterexample): with `chunk_size = 2`, `overlap = 2` and input
`"aaaa"`, every iteration recomputes `end = 2` and
`start = end - overlap = 0`, so the `while` loop never exits: no
amount of fuel makes the embedded loop return. -/
theorem chunk_text_nonterminating : ¬ loopTerminates 2 2 "aaaa".toList := by
  rintro ⟨fuel, h⟩
  have : chunkLoop 2 2 (pyStrip "aaaa".toList) fuel 0 [] = none := by
    have hps : pyStrip "aaaa".toList = "aaaa".toList := by decide
    rw [hps]
    exact chunkLoop_aaaa_none fuel []
  rw [this] at h
  simp at h

lemma slice_full_length (text : List Char) (start c : Nat)
    (h : start + c < text.length) : (slice text start c).length = c := by
  simp only [slice, List.length_take, List.length_drop]
  omega

lemma punctCut_length_lb (c : Nat) (chunk : List Char) : ∀ ps : List (List Char),
    punctCut c chunk ps = chunk ∨
      ∃ i, punctCut c chunk ps = chunk.take (i + 1) ∧ c < 2 * i := by
  intro ps
  induction ps with
  | nil => exact Or.inl rfl
  | cons p ps ih =>
    simp only [punctCut]
    rcases hr : rfind chunk p with _ | i
    · exact ih
    · by_cases hc : c < 2 * i
      · exact Or.inr ⟨i, by simp [hc], hc⟩
      · simpa [hc] using ih

lemma windowTruncate_length_gt (c ov : Nat) (chunk : List Char)
    (hc : 1 ≤ c) (hov : 2 * ov ≤ c) (hlen : chunk.length = c) :
    ov < (windowTruncate c chunk).length := by
  rcases punctCut_length_lb c chunk puncts with h | ⟨i, h, hci⟩
  · rw [windowTruncate, h, hlen]; omega
  · rw [windowTruncate, h]
    simp only [List.length_take, hlen]
    omega

lemma chunkLoop_terminates (c ov : Nat) (text : List Char)
    (hc : 1 ≤ c) (hov : 2 * ov ≤ c) :
    ∀ (fuel start : Nat) (acc : List (List Char)),
      text.length - start < fuel →
      (chunkLoop c ov text fuel start acc).isSome := by
  intro fuel
  induction fuel with
  | zero => intro start acc h; omega
  | succ n ih =>
    intro start acc hfuel
    simp only [chunkLoop]
    by_cases hlt : start < text.length
    · simp only [hlt, if_true]
      by_cases hin : start + c < text.length
      · have hfull : (slice text start c).length = c := slice_full_length text start c hin
        have hgt : ov < (windowTruncate c (slice text start c)).length :=
          windowTruncate_length_gt c ov (slice text start c) hc hov hfull
        by_cases hbreak :
            text.length ≤ start + (windowTruncate c (slice text start c)).length
        · simp [hin, hbreak]
        · simp only [hin, if_true, hbreak, if_false]
          apply ih
          omega
      · have hbreak : text.length ≤ start + c := by omega
        simp [hin, hbreak]
    · simp [hlt]

/-- C4 (amended): `chunk_text` terminates for every input text whenever
`chunk_size ≥ 1` and `2 * overlap ≤ chunk_size` (the defaults 512/128
satisfy this); the fuel `length + 1` always suffices because each
iteration then advances `start` by at least one.  (Without such a
bound the loop can run forever, see the counterexample.) -/
theorem chunk_text_terminates (c ov : Nat) (t : List Char)
    (hc : 1 ≤ c) (hov : 2 * ov ≤ c) :
    (chunk_text c ov t).isSome := by
  unfold chunk_text
  by_cases h : (pyStrip t).length ≤ c
  · simp [h]
  · simp only [h, if_false]
    exact chunkLoop_terminates c ov (pyStrip t) hc hov _ 0 [] (by omega)

/-- Witness for `chunk_text_terminates` at a concrete input. -/
theorem chunk_text_terminates_witness :
    1 ≤ 3 ∧ 2 * 1 ≤ 3 ∧ (chunk_text 3 1 "abcdefgh".toList).isSome :=
  ⟨by decide, by decide,
    chunk_text_terminates 3 1 "abcdefgh".toList (by decide) (by decide)⟩

/-! ## IndexBuilder (`src/backend/rag/index_builder.py`)

The FAISS index is modelled as the list of stored vectors (`ntotal` is
its length; the Flat/IVF distinction only changes search layout, not
what `add` stores).  The embedding model is a parameter
`emb : String → V`; `embed_documents` batches but ultimately produces
one vector per document, i.e. `documents.map emb`. -/

/-- A FAISS index: the stored vectors, in insertion (row) order. -/
structure FaissIndex (V : Type) where
  vecs : List V
deriving DecidableEq

/-- `index.ntotal`. -/
def FaissIndex.ntotal {V : Type} (ix : FaissIndex V) : Nat := ix.vecs.length

/-- The mutable state of an `IndexBuilder`: `self.index` and
`self.metadata`. -/
structure BuilderState (V M : Type) where
  index : Option (FaissIndex V)
  metadata : List M
deriving DecidableEq

/-- `IndexBuilder.is_ready` (lines 187-190):
`index is not None and index.ntotal > 0`. -/
def is_ready {V M : Type} (st : BuilderState V M) : Bool :=
  match st.index with
  | some ix => decide (0 < ix.ntotal)
  | none => false

/-- `IndexBuilder.document_count` (lines 192-195):
`index.ntotal if index else 0`. -/
def document_count {V M : Type} (st : BuilderState V M) : Nat :=
  match st.index with
  | some ix => ix.ntotal
  | none => 0

/-- `IndexBuilder.build_index` (lines 91-125): validate the two list
lengths (raising `ValueError` on mismatch), embed each document, and
replace `self.index` and `self.metadata` wholesale. -/
def build_index {V M : Type} (emb : String → V) (st : BuilderState V M)
    (documents : List String) (metadata : List M) :
    Except String (BuilderState V M) :=
  if documents.length ≠ metadata.length then
    Except.error "Document count != metadata count"
  else
    Except.ok { st with index := some ⟨documents.map emb⟩, metadata := metadata }

/-- `IndexBuilder.add_documents` (lines 127-140): with no index yet,
delegate to `build_index`; otherwise append the new embeddings to the
index and extend `self.metadata` — note the source performs NO length
validation on this path. -/
def add_documents {V M : Type} (emb : String → V) (st : BuilderState V M)
    (documents : List String) (metadata : List M) :
    Except String (BuilderState V M) :=
  match st.index with
  | none => build_index emb st documents metadata
  | some ix =>
    Except.ok { st with
      index := some ⟨ix.vecs ++ documents.map emb⟩,
      metadata := st.metadata ++ metadata }

/-- The failure modes of `IndexBuilder.load`, one per `except` clause
of lines 169-185. -/
inductive LoadErr
  | fileNotFound
  | jsonDecode
  | permissionErr
  | otherErr
deriving DecidableEq

/-- The `except` clauses of `IndexBuilder.load` (lines 169-185),
applied to whatever state the `try` block left behind: only the
`json.JSONDecodeError` and generic `Exception` handlers reset
`self.index`/`self.metadata`; the `FileNotFoundError` and
`PermissionError` handlers return `False` without touching them. -/
def loadHandler {V M : Type} (st : BuilderState V M) :
    LoadErr → BuilderState V M × Bool
  | LoadErr.fileNotFound => (st, false)
  | LoadErr.jsonDecode => ({ st with index := none, metadata := [] }, false)
  | LoadErr.permissionErr => (st, false)
  | LoadErr.otherErr => ({ st with index := none, metadata := [] }, false)

/-- `IndexBuilder.load` (lines 156-185).  The two external reads are
parameters: `readIndex` is the outcome of `faiss.read_index`,
`readMeta` the outcome of `open` + `json.load`.  The `try` body first
assigns `self.index`, then `self.metadata`; an exception jumps to the
matching handler with the partial assignments kept. -/
def load {V M : Type} (st : BuilderState V M)
    (readIndex : Except LoadErr (FaissIndex V))
    (readMeta : Except LoadErr (List M)) : BuilderState V M × Bool :=
  match readIndex with
  | Except.error e => loadHandler st e
  | Except.ok ix =>
    let st1 : BuilderState V M := { st with index := some ix }
    match readMeta with
    | Except.error e => loadHandler st1 e
    | Except.ok md => ({ st1 with metadata := md }, true)

/-- C1 (failing input): a restore in which the FAISS file reads fine
but the metadata file is missing (`FileNotFoundError`) returns `False`
yet leaves the freshly loaded one-vector index in place with stale
(empty) metadata, so `is_ready` is `true` and `document_count` is `1`
after the failed load — a partially loaded state the claim rules out. -/
theorem load_missing_metadata_partial :
    load (⟨none, []⟩ : BuilderState Nat String)
        (Except.ok ⟨[7]⟩) (Except.error LoadErr.fileNotFound) =
      (⟨some ⟨[7]⟩, []⟩, false) ∧
    is_ready (⟨some ⟨[7]⟩, []⟩ : BuilderState Nat String) = true ∧
    document_count (⟨some ⟨[7]⟩, []⟩ : BuilderState Nat String) = 1 := by
  refine ⟨rfl, by decide, rfl⟩

/-- C2 (failing input): on an existing one-vector index,
`add_documents` with two documents but only one metadata record
succeeds with no validation error and leaves `index.ntotal = 3` while
`len(metadata) = 2`, desynchronizing the invariant
`index.ntotal == len(metadata)`. -/
theorem add_documents_desync :
    add_documents (fun s => s.length)
        (⟨some ⟨[5]⟩, ["m0"]⟩ : BuilderState Nat String)
        ["ab", "cde"] ["m1"] =
      Except.ok ⟨some ⟨[5, 2, 3]⟩, ["m0", "m1"]⟩ ∧
    document_count (⟨some ⟨[5, 2, 3]⟩, ["m0", "m1"]⟩ : BuilderState Nat String) = 3 ∧
    (⟨some ⟨[5, 2, 3]⟩, ["m0", "m1"]⟩ : BuilderState Nat String).metadata.length = 2 := by
  refine ⟨rfl, rfl, rfl⟩

/-! ## Retriever (`src/backend/rag/retriever.py`)

Metadata records are JSON objects; the values the retriever touches
are strings and integers, so a metadata value is `MVal` and a record
is an association list in key-insertion order.  FAISS similarity
scores are modelled as `Int` (only their ordering matters to the
claims).  `index.search` is a parameter mapping the requested
candidate count `search_k` to the (index, score) rows it returns,
with `-1` as FAISS's padding sentinel. -/

/-- A metadata value: a JSON string or integer. -/
inductive MVal
  | str (s : String)
  | int (n : Int)
deriving DecidableEq

/-- Render an `MVal` the way Python `str()`/f-strings do. -/
def MVal.render : MVal → String
  | MVal.str s => s
  | MVal.int n => toString n

/-- A metadata record: JSON object as an association list. -/
def Meta : Type := List (String × MVal)

instance : DecidableEq Meta := by
  unfold Meta
  infer_instance

/-- Python `dict.get(key)`: first value bound to `key`, if any. -/
def metaGet (m : Meta) (k : String) : Option MVal :=
  match m with
  | [] => none
  | (k2, v) :: rest => if k2 = k then some v else metaGet rest k

/-- A `RetrievalResult` (retriever.py lines 20-32). -/
structure RetrievalResult where
  score : Int
  content : String
  metadata : Meta
deriving DecidableEq

/-- The resolution `k = k or self.retrieval_k` (line 95): Python
truthiness sends both `None` and `0` to the configured default. -/
def resolveK : Option Nat → Nat → Nat
  | none, d => d
  | some n, d => if n = 0 then d else n

/-- Python truthiness of the `filters` argument (`if filters:`): both
`None` and the empty dict are falsy. -/
def truthyFilters : Option (List (String × MVal)) → Bool
  | none => false
  | some l => decide (l ≠ [])

/-- `all(metadata.get(key) == value for key, value in filters.items())`
(lines 121-124). -/
def matchesFilters (fs : List (String × MVal)) (m : Meta) : Bool :=
  fs.all (fun kv => metaGet m kv.1 = some kv.2)

/-- `metadata.get("content", f"[Record: {metadata.get('document_id', idx)}]")`
followed by the `[:max_context_chars]` truncation (lines 128 and 132). -/
def contentOf (m : Meta) (idx : Int) (maxChars : Nat) : String :=
  let base :=
    match metaGet m "content" with
    | some v => v.render
    | none =>
      "[Record: " ++
        (match metaGet m "document_id" with
         | some d => d.render
         | none => toString idx) ++ "]"
  base.take maxChars

/-- The candidate loop of `Retriever.retrieve` (lines 109-137): skip
the `-1` padding rows, rows below `min_score`, and (when `filters` is
truthy) rows whose metadata fails any filter pair; append accepted
rows in candidate order and stop as soon as `k` results are
collected. -/
def retrieveLoop (metadata : List Meta) (filters : Option (List (String × MVal)))
    (minScore : Int) (k maxChars : Nat) :
    List (Int × Int) → List RetrievalResult → List RetrievalResult
  | [], acc => acc
  | (idx, score) :: rest, acc =>
    if idx = -1 then retrieveLoop metadata filters minScore k maxChars rest acc
    else if score < minScore then retrieveLoop metadata filters minScore k maxChars rest acc
    else
      let md := (metadata.get? idx.toNat).getD []
      if truthyFilters filters && !matchesFilters (filters.getD []) md then
        retrieveLoop metadata filters minScore k maxChars rest acc
      else
        let acc2 := acc ++ [⟨score, contentOf md idx maxChars, md⟩]
        if k ≤ acc2.length then acc2
        else retrieveLoop metadata filters minScore k maxChars rest acc2

/-- `Retriever.retrieve` (lines 76-155): resolve `k`, return `[]` when
the index is not ready, over-retrieve `3 * k` candidates when filters
are truthy, and run the candidate loop.  (The query-embedding cache is
orthogonal to the returned rows and is modelled separately as
`embed_query_cached`.) -/
def retrieve (ready : Bool) (metadata : List Meta) (search : Nat → List (Int × Int))
    (k : Option Nat) (filters : Option (List (String × MVal)))
    (minScore : Int) (retrievalK maxChars : Nat) : List RetrievalResult :=
  let k2 := resolveK k retrievalK
  if !ready then []
  else
    let searchK := if truthyFilters filters then k2 * 3 else k2
    retrieveLoop metadata filters minScore k2 maxChars (search searchK) []

/-! ### Query-embedding cache (`Retriever._embed_query`, lines 61-74)

The `_query_cache` dict is an insertion-ordered association list
(Python dicts preserve insertion order; `next(iter(d))` is the
oldest-inserted key).  `TextProcessor.compute_hash` (MD5, truncated to
12 hex chars) and the embedding model are parameters. -/

/-- Lookup in the cache dict. -/
def cacheLookup {V : Type} (st : List (String × V)) (k : String) : Option V :=
  match st with
  | [] => none
  | (k2, v) :: rest => if k2 = k then some v else cacheLookup rest k

/-- `Retriever._embed_query`: on a miss, invoke the model, insert at
the end, and when the dict has grown past 1000 entries delete the
oldest-inserted key; return the cached vector.  The result is
`(returned vector, new cache, whether the model was invoked)`. -/
def embed_query_cached {V : Type} (hash : String → String) (emb : String → V)
    (st : List (String × V)) (q : String) : V × List (String × V) × Bool :=
  let key := hash q
  match cacheLookup st key with
  | some v => (v, st, false)
  | none =>
    let st1 := st ++ [(key, emb q)]
    let st2 := if 1000 < st1.length then st1.tail else st1
    ((cacheLookup st2 key).getD (emb q), st2, true)

lemma retrieveLoop_filter_sound (metadata : List Meta) (fs : List (String × MVal))
    (minScore : Int) (k maxChars : Nat) :
    ∀ (cands : List (Int × Int)) (acc : List RetrievalResult),
      (∀ r ∈ acc, ∀ kv ∈ fs, metaGet r.metadata kv.1 = some kv.2) →
      ∀ r ∈ retrieveLoop metadata (some fs) minScore k maxChars cands acc,
        ∀ kv ∈ fs, metaGet r.metadata kv.1 = some kv.2 := by
  intro cands
  induction cands with
  | nil => intro acc hacc; simpa [retrieveLoop] using hacc
  | cons hd tl ih =>
    intro acc hacc
    obtain ⟨idx, score⟩ := hd
    simp only [retrieveLoop]
    by_cases h1 : idx = -1
    · simp only [h1, if_true]; exact ih acc hacc
    · simp only [h1, if_false]
      by_cases h2 : score < minScore
      · simp only [h2, if_true]; exact ih acc hacc
      · simp only [h2, if_false]
        by_cases hfs : fs = []
        · subst hfs
          intro r hr kv hkv
          simp at hkv
        · have htru : truthyFilters (some fs) = true := by
            simp [truthyFilters, hfs]
          by_cases h3 : matchesFilters fs ((metadata.get? idx.toNat).getD [])
          · simp only [htru, h3, Bool.not_true, Bool.and_false, Bool.false_eq_true,
              if_false, Option.getD_some]
            by_cases h4 :
                k ≤ (acc ++ [(⟨score,
                  contentOf ((metadata.get? idx.toNat).getD []) idx maxChars,
                  (metadata.get? idx.toNat).getD []⟩ : RetrievalResult)]).length
            · simp only [h4, if_true]
              intro r hr kv hkv
              rcases List.mem_append.mp hr with hr | hr
              · exact hacc r hr kv hkv
              · simp only [List.mem_singleton] at hr
                subst hr
                unfold matchesFilters at h3
                simp only [List.all_eq_true, decide_eq_true_eq] at h3
                exact h3 kv hkv
            · simp only [h4, if_false]
              apply ih
              intro r hr kv hkv
              rcases List.mem_append.mp hr with hr | hr
              · exact hacc r hr kv hkv
              · simp only [List.mem_singleton] at hr
                subst hr
                unfold matchesFilters at h3
                simp only [List.all_eq_true, decide_eq_true_eq] at h3
                exact h3 kv hkv
          · simp only [htru, h3, Bool.not_false, Bool.and_true, if_true,
              Option.getD_some]
            exact ih acc hacc

lemma retrieveLoop_length_le (metadata : List Meta)
    (filters : Option (List (String × MVal))) (minScore : Int) (k maxChars : Nat) :
    ∀ (cands : List (Int × Int)) (acc : List RetrievalResult),
      acc.length < k →
      (retrieveLoop metadata filters minScore k maxChars cands acc).length ≤ k := by
  intro cands
  induction cands with
  | nil => intro acc hacc; simp only [retrieveLoop]; omega
  | cons hd tl ih =>
    intro acc hacc
    obtain ⟨idx, score⟩ := hd
    simp only [retrieveLoop]
    by_cases h1 : idx = -1
    · simp only [h1, if_true]; exact ih acc hacc
    · simp only [h1, if_false]
      by_cases h2 : score < minScore
      · simp only [h2, if_true]; exact ih acc hacc
      · simp only [h2, if_false]
        by_cases h3 : truthyFilters filters &&
            !matchesFilters (filters.getD []) ((metadata.get? idx.toNat).getD [])
        · simp only [h3, if_true]; exact ih acc hacc
        · simp only [h3, Bool.false_eq_true, if_false]
          by_cases h4 :
              k ≤ (acc ++ [(⟨score,
                contentOf ((metadata.get? idx.toNat).getD []) idx maxChars,
                (metadata.get? idx.toNat).getD []⟩ : RetrievalResult)]).length
          · simp only [h4, if_true]
            simp only [List.length_append, List.length_singleton] at h4 ⊢
            omega
          · simp only [h4, if_false]
            apply ih
            simp only [List.length_append, List.length_singleton] at h4 ⊢
            omega

lemma retrieveLoop_scores_sublist (metadata : List Meta)
    (filters : Option (List (String × MVal))) (minScore : Int) (k maxChars : Nat) :
    ∀ (cands : List (Int × Int)) (acc : List RetrievalResult),
      List.Sublist
        ((retrieveLoop metadata filters minScore k maxChars cands acc).map
          RetrievalResult.score)
        (acc.map RetrievalResult.score ++ cands.map Prod.snd) := by
  intro cands
  induction cands with
  | nil =>
    intro acc
    simp only [retrieveLoop, List.map_nil, List.append_nil]
    exact List.Sublist.refl _
  | cons hd tl ih =>
    intro acc
    obtain ⟨idx, score⟩ := hd
    have hskip : ∀ acc2 : List RetrievalResult,
        List.Sublist
          ((retrieveLoop metadata filters minScore k maxChars tl acc2).map
            RetrievalResult.score)
          (acc2.map RetrievalResult.score ++ ((idx, score) :: tl).map Prod.snd) := by
      intro acc2
      refine (ih acc2).trans ?_
      simp only [List.map_cons]
      exact List.Sublist.append_left (List.sublist_cons_self _ _) _
    simp only [retrieveLoop]
    by_cases h1 : idx = -1
    · simp only [h1, if_true]; exact hskip acc
    · simp only [h1, if_false]
      by_cases h2 : score < minScore
      · simp only [h2, if_true]; exact hskip acc
      · simp only [h2, if_false]
        by_cases h3 : truthyFilters filters &&
            !matchesFilters (filters.getD []) ((metadata.get? idx.toNat).getD [])
        · simp only [h3, if_true]; exact hskip acc
        · simp only [h3, Bool.false_eq_true, if_false]
          set r : RetrievalResult :=
            ⟨score, contentOf ((metadata.get? idx.toNat).getD []) idx maxChars,
              (metadata.get? idx.toNat).getD []⟩ with hr
          by_cases h4 : k ≤ (acc ++ [r]).length
          · simp only [h4, if_true, List.map_append, List.map_cons, List.map_nil]
            refine List.Sublist.append_left ?_ _
            simp [hr]
          · simp only [h4, if_false]
            refine (ih (acc ++ [r])).trans ?_
            simp only [List.map_append, List.map_cons, List.map_nil,
              List.append_assoc, List.singleton_append]
            exact List.Sublist.refl _

/-- C5: with any non-`None` filters dict, `retrieve` (i) never returns
a result whose metadata fails exact-equality on any supplied filter
pair, (ii) returns at most the resolved `k` results, and (iii) collects
them in candidate order, so when the search candidates come back in
descending-score order the results are in descending-score order too.
(`0 < retrievalK` is the configured default `retrieval_k = 4`; the
effective `k` is `resolveK k retrievalK`, see C10 for `k = 0`.) -/
theorem retrieve_filters_sound (ready : Bool) (metadata : List Meta)
    (search : Nat → List (Int × Int)) (k : Option Nat)
    (fs : List (String × MVal)) (minScore : Int) (retrievalK maxChars : Nat)
    (hrk : 0 < retrievalK) :
    (∀ r ∈ retrieve ready metadata search k (some fs) minScore retrievalK maxChars,
      ∀ kv ∈ fs, metaGet r.metadata kv.1 = some kv.2) ∧
    (retrieve ready metadata search k (some fs) minScore retrievalK maxChars).length ≤
      resolveK k retrievalK ∧
    (List.Sorted (fun a b : Int => b ≤ a)
        ((search (if truthyFilters (some fs) then resolveK k retrievalK * 3
          else resolveK k retrievalK)).map Prod.snd) →
      List.Sorted (fun a b : Int => b ≤ a)
        ((retrieve ready metadata search k (some fs) minScore retrievalK maxChars).map
          RetrievalResult.score)) := by
  have hk2 : 0 < resolveK k retrievalK := by
    cases k with
    | none => simpa [resolveK] using hrk
    | some n =>
      by_cases hn : n = 0
      · simpa [resolveK, hn] using hrk
      · simpa [resolveK, hn] using Nat.pos_of_ne_zero hn
  by_cases hready : ready
  · simp only [retrieve, hready, Bool.not_true, Bool.false_eq_true, if_false]
    refine ⟨?_, ?_, ?_⟩
    · exact retrieveLoop_filter_sound metadata fs minScore _ maxChars _ []
        (by intro r hr; simp at hr)
    · exact retrieveLoop_length_le metadata (some fs) minScore _ maxChars _ []
        (by simpa using hk2)
    · intro hsorted
      have hsub := retrieveLoop_scores_sublist metadata (some fs) minScore
        (resolveK k retrievalK) maxChars
        (search (if truthyFilters (some fs) then resolveK k retrievalK * 3
          else resolveK k retrievalK)) []
      simp only [List.map_nil, List.nil_append] at hsub
      exact List.Pairwise.sublist hsub hsorted
  · simp only [retrieve, hready, Bool.not_false, if_true]
    refine ⟨by intro r hr; simp at hr, by simp, by intro h; simp⟩

/-- Witness for `retrieve_filters_sound` at a concrete input. -/
theorem retrieve_filters_sound_witness :
    (0 < 4) ∧
    ((∀ r ∈ retrieve true [[("document_id", MVal.str "X")], [("document_id", MVal.str "Y")]]
        (fun _ => [(0, 9), (1, 7)]) (some 2) (some [("document_id", MVal.str "X")])
        0 4 3000,
      ∀ kv ∈ [("document_id", MVal.str "X")], metaGet r.metadata kv.1 = some kv.2) ∧
    (retrieve true [[("document_id", MVal.str "X")], [("document_id", MVal.str "Y")]]
        (fun _ => [(0, 9), (1, 7)]) (some 2) (some [("document_id", MVal.str "X")])
        0 4 3000).length ≤ resolveK (some 2) 4 ∧
    (List.Sorted (fun a b : Int => b ≤ a)
        (((fun _ : Nat => [((0 : Int), (9 : Int)), (1, 7)])
          (if truthyFilters (some [("document_id", MVal.str "X")])
            then resolveK (some 2) 4 * 3 else resolveK (some 2) 4)).map Prod.snd) →
      List.Sorted (fun a b : Int => b ≤ a)
        ((retrieve true [[("document_id", MVal.str "X")], [("document_id", MVal.str "Y")]]
          (fun _ => [(0, 9), (1, 7)]) (some 2) (some [("document_id", MVal.str "X")])
          0 4 3000).map RetrievalResult.score))) :=
  ⟨by decide,
    retrieve_filters_sound true
      [[("document_id", MVal.str "X")], [("document_id", MVal.str "Y")]]
      (fun _ => [(0, 9), (1, 7)]) (some 2) [("document_id", MVal.str "X")]
      0 4 3000 (by decide)⟩

lemma retrieveLoop_empty_filters (metadata : List Meta) (minScore : Int)
    (k maxChars : Nat) :
    ∀ (cands : List (Int × Int)) (acc : List RetrievalResult),
      retrieveLoop metadata (some []) minScore k maxChars cands acc =
        retrieveLoop metadata none minScore k maxChars cands acc := by
  intro cands
  induction cands with
  | nil => intro acc; rfl
  | cons hd tl ih =>
    intro acc
    obtain ⟨idx, score⟩ := hd
    simp only [retrieveLoop, truthyFilters, ne_eq, not_true_eq_false, decide_False,
      Bool.false_and, Bool.false_eq_true, if_false, Option.getD_some, Option.getD_none]
    by_cases h1 : idx = -1
    · simp only [h1, if_true]; exact ih acc
    · simp only [h1, if_false]
      by_cases h2 : score < minScore
      · simp only [h2, if_true]; exact ih acc
      · simp only [h2, if_false]
        by_cases h4 :
            k ≤ (acc ++ [(⟨score,
              contentOf ((metadata.get? idx.toNat).getD []) idx maxChars,
              (metadata.get? idx.toNat).getD []⟩ : RetrievalResult)]).length
        · simp only [h4, if_true]
        · simp only [h4, if_false]; exact ih _

/-- C10: `retrieve` resolves `k` with a Python truthiness check, so
`k = 0` behaves exactly like leaving `k` unspecified (it becomes the
configured default), and an empty filters dict behaves exactly like
passing no filters (no 3×k over-retrieval and no filter checks). -/
theorem retrieve_k0_and_empty_filters (ready : Bool) (metadata : List Meta)
    (search : Nat → List (Int × Int)) (k : Option Nat)
    (filters : Option (List (String × MVal))) (minScore : Int)
    (retrievalK maxChars : Nat) :
    retrieve ready metadata search (some 0) filters minScore retrievalK maxChars =
      retrieve ready metadata search none filters minScore retrievalK maxChars ∧
    retrieve ready metadata search k (some []) minScore retrievalK maxChars =
      retrieve ready metadata search k none minScore retrievalK maxChars := by
  constructor
  · rfl
  · by_cases hready : ready
    · simp only [retrieve, hready, Bool.not_true, Bool.false_eq_true, if_false,
        truthyFilters, ne_eq, not_true_eq_false, decide_False]
      exact retrieveLoop_empty_filters metadata minScore _ maxChars _ []
    · simp [retrieve, hready]

lemma cacheLookup_append_of_none {V : Type} (l : List (String × V)) (k : String)
    (v : V) (h : cacheLookup l k = none) :
    cacheLookup (l ++ [(k, v)]) k = some v := by
  induction l with
  | nil => simp [cacheLookup]
  | cons a l ih =>
    simp only [cacheLookup] at h ⊢
    by_cases hk : a.1 = k
    · simp [hk] at h
    · simp only [hk, if_false] at h ⊢
      exact ih h

lemma cacheLookup_tail_of_none {V : Type} (l : List (String × V)) (k : String)
    (h : cacheLookup l k = none) : cacheLookup l.tail k = none := by
  cases l with
  | nil => simp [cacheLookup]
  | cons a l =>
    simp only [cacheLookup] at h
    by_cases hk : a.1 = k
    · simp [hk] at h
    · simpa [hk] using h

lemma tail_append_singleton {V : Type} (l : List (String × V)) (x : String × V)
    (h : l ≠ []) : (l ++ [x]).tail = l.tail ++ [x] := by
  cases l with
  | nil => exact absurd rfl h
  | cons a l => rfl

/-- C8: embedding the same query twice through `_embed_query` returns
the identical cached vector the second time without invoking the
embedding model, the cache stays within its 1000-entry bound after any
call, and an insertion that overflows a full 1000-entry cache evicts
exactly the oldest-inserted entry (the head of the insertion-ordered
dict). -/
theorem embed_query_cache_props {V : Type} (hash : String → String)
    (emb : String → V) (st : List (String × V)) (q : String)
    (hb : st.length ≤ 1000) :
    (embed_query_cached hash emb (embed_query_cached hash emb st q).2.1 q).1 =
      (embed_query_cached hash emb st q).1 ∧
    (embed_query_cached hash emb (embed_query_cached hash emb st q).2.1 q).2.2 =
      false ∧
    (embed_query_cached hash emb st q).2.1.length ≤ 1000 ∧
    (st.length = 1000 → cacheLookup st (hash q) = none →
      (embed_query_cached hash emb st q).2.1 =
        st.tail ++ [(hash q, emb q)]) := by
  rcases hl : cacheLookup st (hash q) with _ | v
  · by_cases hfull : st.length = 1000
    · have hne : st ≠ [] := by
        intro h; rw [h] at hfull; simp at hfull
      have hlen1 : 1000 < (st ++ [(hash q, emb q)]).length := by
        simp [hfull]
      have htail : (st ++ [(hash q, emb q)]).tail =
          st.tail ++ [(hash q, emb q)] :=
        tail_append_singleton st _ hne
      have hlook : cacheLookup (st.tail ++ [(hash q, emb q)]) (hash q) =
          some (emb q) :=
        cacheLookup_append_of_none _ _ _ (cacheLookup_tail_of_none st _ hl)
      have hfst : embed_query_cached hash emb st q =
          (emb q, st.tail ++ [(hash q, emb q)], true) := by
        simp only [embed_query_cached, hl]
        rw [if_pos hlen1, htail, hlook]
        rfl
      have hsnd : embed_query_cached hash emb
          (st.tail ++ [(hash q, emb q)]) q =
          (emb q, st.tail ++ [(hash q, emb q)], false) := by
        simp only [embed_query_cached, hlook]
      refine ⟨?_, ?_, ?_, ?_⟩
      · simp [hfst, hsnd]
      · simp [hfst, hsnd]
      · rw [hfst]
        have : st.tail.length + 1 ≤ 1000 := by
          have := List.length_tail st
          omega
        simpa using this
      · intro _ _; rw [hfst]
    · have hlen1 : ¬ 1000 < (st ++ [(hash q, emb q)]).length := by
        simp only [List.length_append, List.length_singleton]
        omega
      have hlook : cacheLookup (st ++ [(hash q, emb q)]) (hash q) =
          some (emb q) :=
        cacheLookup_append_of_none _ _ _ hl
      have hfst : embed_query_cached hash emb st q =
          (emb q, st ++ [(hash q, emb q)], true) := by
        simp only [embed_query_cached, hl]
        rw [if_neg hlen1, hlook]
        rfl
      have hsnd : embed_query_cached hash emb (st ++ [(hash q, emb q)]) q =
          (emb q, st ++ [(hash q, emb q)], false) := by
        simp only [embed_query_cached, hlook]
      refine ⟨?_, ?_, ?_, ?_⟩
      · simp [hfst, hsnd]
      · simp [hfst, hsnd]
      · rw [hfst]
        simp only [List.length_append, List.length_singleton]
        omega
      · intro h1 _; exact absurd h1 hfull
  · have hfst : embed_query_cached hash emb st q = (v, st, false) := by
      simp only [embed_query_cached, hl]
    refine ⟨?_, ?_, ?_, ?_⟩
    · simp [hfst]
    · simp [hfst]
    · simpa [hfst] using hb
    · intro _ h2; simp at h2

/-- Witness for `embed_query_cache_props` at a concrete input. -/
theorem embed_query_cache_props_witness :
    (([] : List (String × Nat)).length ≤ 1000) ∧
    ((embed_query_cached (fun s => s) (fun s => s.length)
        (embed_query_cached (fun s => s) (fun s => s.length) [] "q").2.1 "q").1 =
      (embed_query_cached (fun s => s) (fun s => s.length) [] "q").1 ∧
    (embed_query_cached (fun s => s) (fun s => s.length)
        (embed_query_cached (fun s => s) (fun s => s.length) [] "q").2.1 "q").2.2 =
      false ∧
    (embed_query_cached (fun s => s) (fun s => s.length) [] "q").2.1.length ≤ 1000 ∧
    (([] : List (String × Nat)).length = 1000 →
      cacheLookup ([] : List (String × Nat)) ((fun s => s) "q") = none →
      (embed_query_cached (fun s => s) (fun s => s.length) [] "q").2.1 =
        ([] : List (String × Nat)).tail ++ [((fun s : String => s) "q",
          (fun s : String => s.length) "q")])) :=
  ⟨by decide,
    embed_query_cache_props (fun s => s) (fun s => s.length) [] "q" (by decide)⟩

/-! ## LLMGateway (`src/backend/rag/llm_gateway.py`)

The Portkey API call is a parameter `outcomes : Nat → Except String
String` giving the outcome of the attempt with each index (the error
string models `str(e)` of the raised exception).  The wall-clock
fields `latency_ms`/`usage` are time-dependent and omitted from the
modelled `LLMResponse`; the `time.sleep(2 ** attempt)` backoff calls
are recorded as an explicit trace of sleep durations. -/

/-- `LLMResponse` (llm_gateway.py lines 16-24), without the
time-derived `usage`/`latency_ms` fields. -/
structure LLMResponse where
  content : String
  model : String
  success : Bool
  error : Option String
deriving DecidableEq

/-- A run of `LLMGateway.generate`: the returned response, how many
times the LLM API was invoked, and the backoff sleeps performed
between failed attempts. -/
structure GenTrace where
  resp : LLMResponse
  calls : Nat
  sleeps : List Nat
deriving DecidableEq

/-- The `for attempt in range(max_retries)` loop of `generate`
(lines 107-157), over the remaining attempt indices: a successful call
returns immediately; a failed attempt with `attempt < max_retries - 1`
sleeps `2 ** attempt` seconds and retries; the final failed attempt
returns `success=False` with an error naming the attempt count.  The
empty-list case is the post-loop fallback of lines 159-165, reached
only when `max_retries` is 0. -/
def genGo (modelName : String) (outcomes : Nat → Except String String)
    (maxRetries : Nat) : List Nat → List Nat → Nat → GenTrace
  | [], sleeps, calls =>
    ⟨⟨"", modelName, false, some "No retry attempts configured"⟩, calls, sleeps⟩
  | a :: rest, sleeps, calls =>
    match outcomes a with
    | Except.ok content => ⟨⟨content, modelName, true, none⟩, calls + 1, sleeps⟩
    | Except.error e =>
      if a < maxRetries - 1 then
        genGo modelName outcomes maxRetries rest (sleeps ++ [2 ^ a]) (calls + 1)
      else
        ⟨⟨"", modelName, false,
            some ("LLM call failed after " ++ toString maxRetries ++
              " attempts: " ++ e)⟩,
          calls + 1, sleeps⟩

/-- `LLMGateway.generate` (lines 88-165): with no initialized client
return the structured `success=False` response without calling the
API; otherwise run the retry loop over attempts `0, ..., max_retries - 1`. -/
def generate (clientReady : Bool) (modelName : String)
    (outcomes : Nat → Except String String) (maxRetries : Nat) : GenTrace :=
  if !clientReady then
    ⟨⟨"", modelName, false, some "LLM client not initialized. Check API key."⟩,
      0, []⟩
  else genGo modelName outcomes maxRetries (List.range maxRetries) [] 0

lemma genGo_all_fail (modelName : String) (outcomes : Nat → Except String String)
    (errs : Nat → String) (m : Nat)
    (hfail : ∀ i, i < m → outcomes i = Except.error (errs i)) :
    ∀ (kk j : Nat) (sleeps : List Nat) (calls : Nat), j + kk = m → 0 < kk →
      genGo modelName outcomes m (List.range' j kk) sleeps calls =
        ⟨⟨"", modelName, false,
            some ("LLM call failed after " ++ toString m ++ " attempts: " ++
              errs (m - 1))⟩,
          calls + kk, sleeps ++ (List.range' j (kk - 1)).map (fun i => 2 ^ i)⟩ := by
  intro kk
  induction kk with
  | zero => intro j sleeps calls _ h0; omega
  | succ k ih =>
    intro j sleeps calls hjm _
    have hj : j < m := by omega
    have hout : outcomes j = Except.error (errs j) := hfail j hj
    simp only [List.range'_succ, genGo, hout]
    by_cases hk : k = 0
    · subst hk
      have hlast : ¬ j < m - 1 := by omega
      have hjm1 : j = m - 1 := by omega
      simp [hlast, hjm1, List.range']
    · have hcont : j < m - 1 := by omega
      simp only [hcont, if_true]
      rw [ih (j + 1) (sleeps ++ [2 ^ j]) (calls + 1) (by omega)
        (Nat.pos_of_ne_zero hk)]
      have hrange : List.range' j (k + 1 - 1) = j :: List.range' (j + 1) (k - 1) := by
        have hsplit : k + 1 - 1 = (k - 1) + 1 := by omega
        rw [hsplit, List.range'_succ]
      rw [hrange]
      simp only [GenTrace.mk.injEq, List.map_cons]
      refine ⟨trivial, by omega, by simp⟩

/-- C9: when the client is initialized and every attempt up to the
retry ceiling fails, `generate` invokes the API exactly `maxRetries`
times, sleeps `2^0, 2^1, ...` between consecutive failed attempts
(exponential base-2 backoff), and returns a structured `LLMResponse`
with `success = false` whose error message names the attempt count —
it neither raises nor retries further. -/
theorem generate_all_fail (modelName : String)
    (outcomes : Nat → Except String String) (errs : Nat → String) (m : Nat)
    (hm : 0 < m) (hfail : ∀ i, i < m → outcomes i = Except.error (errs i)) :
    generate true modelName outcomes m =
      ⟨⟨"", modelName, false,
          some ("LLM call failed after " ++ toString m ++ " attempts: " ++
            errs (m - 1))⟩,
        m, (List.range (m - 1)).map (fun i => 2 ^ i)⟩ := by
  simp only [generate, Bool.not_true, Bool.false_eq_true, if_false]
  rw [List.range_eq_range']
  rw [genGo_all_fail modelName outcomes errs m hfail m 0 [] 0 (by omega) hm]
  simp [List.range_eq_range']

/-- Witness for `generate_all_fail` at the default retry ceiling 3. -/
theorem generate_all_fail_witness :
    (0 < 3) ∧
    (∀ i, i < 3 →
      (fun _ : Nat => (Except.error "boom" : Except String String)) i =
        Except.error ((fun _ : Nat => "boom") i)) ∧
    generate true "gpt-4o" (fun _ => Except.error "boom") 3 =
      ⟨⟨"", "gpt-4o", false,
          some ("LLM call failed after " ++ toString 3 ++ " attempts: " ++
            (fun _ : Nat => "boom") (3 - 1))⟩,
        3, (List.range (3 - 1)).map (fun i => 2 ^ i)⟩ :=
  ⟨by decide, fun _ _ => rfl,
    generate_all_fail "gpt-4o" (fun _ => Except.error "boom")
      (fun _ => "boom") 3 (by decide) (fun _ _ => rfl)⟩

/-! ## RAGPipeline (`src/backend/rag/pipeline.py`)

`RAGPipeline.query` composes the retriever and the gateway models
above.  The `_is_initialized` flag and the retriever/gateway state are
parameters; the LLM call is `llm systemPrompt userPrompt attempt`. -/

/-- `metadata.get(key, default)` rendered as a string the way the
source's f-strings do. -/
def metaStr (m : Meta) (k : String) (d : String) : String :=
  match metaGet m k with
  | some v => v.render
  | none => d

/-- `metadata.get(key, default)` for the integer-valued keys
`chunk_idx`/`total_chunks` (the source performs arithmetic on these,
so they are integers in every record `prepare_for_indexing` writes). -/
def metaInt (m : Meta) (k : String) (d : Int) : Int :=
  match metaGet m k with
  | some (MVal.int n) => n
  | some (MVal.str _) => d
  | none => d

/-- One citation dict from `Retriever.get_citations` (lines 172-184).
`score` keeps the modelled integer score (`round(score, 3)` in the
source). -/
structure Citation where
  index : Nat
  document_id : String
  filename : String
  chunk : String
  score : Int
deriving DecidableEq

/-- `Retriever.get_citations`. -/
def getCitations (results : List RetrievalResult) : List Citation :=
  results.enum.map (fun p =>
    { index := p.1 + 1
      document_id := metaStr p.2.metadata "document_id" "N/A"
      filename := metaStr p.2.metadata "filename" "Unknown"
      chunk := toString (metaInt p.2.metadata "chunk_idx" 0 + 1) ++ "/" ++
        toString (metaInt p.2.metadata "total_chunks" 1)
      score := p.2.score })

/-- `Retriever.get_context_block` (lines 157-170). -/
def getContextBlock (results : List RetrievalResult)
    (includeScores : Bool) : String :=
  String.intercalate "\n\n---\n\n" (results.enum.map (fun p =>
    let header := "[" ++ toString (p.1 + 1) ++ "] Document: " ++
      metaStr p.2.metadata "filename" "Unknown"
    let header2 :=
      if includeScores then
        header ++ " (relevance: " ++ toString p.2.score ++ ")"
      else header
    header2 ++ "\n" ++ p.2.content))

/-- The `llm_response` dict carried inside a `RAGResponse`: the empty
dict `{}` of the uninitialized/retrieval-failure branches, the literal
`{"content": "", "success": True}` of the no-results branch, or a full
`LLMResponse.to_dict()`. -/
inductive LLMInfo
  | emptyDict
  | stub (content : String) (success : Bool)
  | full (r : LLMResponse)
deriving DecidableEq

/-- `RAGResponse` (pipeline.py lines 21-39); `sources` keeps the
result records themselves (`to_dict` is a field-for-field rendering). -/
structure RAGResponse where
  answer : String
  citations : List Citation
  sources : List RetrievalResult
  llm : LLMInfo
  success : Bool
  error : Option String
deriving DecidableEq

/-- `RAGPipeline.query` (lines 147-216): the uninitialized soft
failure, the empty-results branch, and the full retrieve → context →
generate path (retrieve is called with the default `min_score = 0`,
generate with the default `max_retries = 3`). -/
def query (initialized : Bool) (ready : Bool) (metadata : List Meta)
    (search : Nat → List (Int × Int)) (k : Option Nat)
    (filters : Option (List (String × MVal))) (retrievalK maxChars : Nat)
    (clientReady : Bool) (modelName : String)
    (llm : String → String → Nat → Except String String)
    (question systemPrompt : String) : RAGResponse :=
  if !initialized then
    { answer := "No documents have been indexed yet. Please upload some documents first."
      citations := []
      sources := []
      llm := LLMInfo.emptyDict
      success := false
      error := some "Pipeline not initialized - no documents indexed" }
  else
    let results := retrieve ready metadata search k filters 0 retrievalK maxChars
    if results = [] then
      { answer := "No relevant information found in the indexed documents for your query."
        citations := []
        sources := []
        llm := LLMInfo.stub "" true
        success := true
        error := none }
    else
      let contextBlock := getContextBlock results false
      let userPrompt := "QUESTION: " ++ question ++ "\n\nCONTEXT:\n" ++
        contextBlock ++
        "\n\nProvide a comprehensive answer based on the context above. " ++
        "Reference specific documents when possible."
      let g := generate clientReady modelName (llm systemPrompt userPrompt) 3
      { answer := g.resp.content
        citations := getCitations results
        sources := results
        llm := LLMInfo.full g.resp
        success := g.resp.success
        error := g.resp.error }

/-- C7: querying a never-initialized pipeline returns the structured
soft-failure response for every question, `k`, filters, and component
state: `success = false`, the explanatory no-documents-indexed answer,
an error naming the uninitialized condition (whose text literally
contains "no documents indexed"), and empty citations and sources —
no exception path exists.  -/
theorem query_uninitialized (ready : Bool) (metadata : List Meta)
    (search : Nat → List (Int × Int)) (k : Option Nat)
    (filters : Option (List (String × MVal))) (retrievalK maxChars : Nat)
    (clientReady : Bool) (modelName : String)
    (llm : String → String → Nat → Except String String)
    (question systemPrompt : String) :
    query false ready metadata search k filters retrievalK maxChars
        clientReady modelName llm question systemPrompt =
      { answer := "No documents have been indexed yet. Please upload some documents first."
        citations := []
        sources := []
        llm := LLMInfo.emptyDict
        success := false
        error := some "Pipeline not initialized - no documents indexed" } ∧
    "Pipeline not initialized - no documents indexed" =
      "Pipeline not initialized - " ++ "no documents indexed" :=
  ⟨rfl, rfl⟩

end RAGSpec
